import Mathlib

/-!
Verification of the transaction reconciliation and profit-derivation engine
of the TradeTracker application.

The engine lives in `src/App.tsx` (the `stats` memo, `handleMerge`,
`handleQuickUpdate`, `executeDelete`, `parseAndImport`) and in the
`MatchView` component (`calculateScore`, `detectCategory`).  Records are
JavaScript objects of the `Transaction` interface from `src/types.ts`
(plus the `smartType` field used throughout the app code).

Modelling conventions:
* JavaScript numbers are modelled as exact rationals (`ℚ`); `NaN` is
  modelled by `Option ℚ` where it matters (`none` = NaN).
* Optional (`?:`) fields are `Option _`; JavaScript truthiness of strings
  (empty string is falsy) is modelled explicitly by the `jsOr*` helpers.
* `JSON.parse` is an external runtime facility, not repository code; the
  whole import pipeline is therefore parameterised by an arbitrary
  `parse : String → Option Json` (`none` = the parse throws).
* String operations (`includes`, `split`, `trim`, `toLowerCase`, the
  token regex) are implemented over `List Char`.
-/

/-- JavaScript `o || d` for an optional string: `undefined` and the empty
string are falsy. -/
def jsOrStr (o : Option String) (d : String) : String :=
  match o with
  | none => d
  | some s => if s = "" then d else s

/-- JavaScript `o || d` on two optional strings (used for
`buyItem.smartType || sellItem.smartType`). -/
def jsOrOpt (o d : Option String) : Option String :=
  match o with
  | none => d
  | some s => if s = "" then d else some s

/-- JavaScript truthiness of an optional string value. -/
def jsTruthyStr (o : Option String) : Bool :=
  match o with
  | none => false
  | some s => s ≠ ""

/-- JavaScript `x || 0` on a number that may be NaN (`none`): NaN and 0
both collapse to 0, any other number passes through (negatives included). -/
def jsNumOr0 (o : Option ℚ) : ℚ :=
  match o with
  | none => 0
  | some q => q

/-- A record of the collection: the `Transaction` interface of
`src/types.ts`, together with the `smartType` field the app code reads and
writes on transactions. -/
structure Transaction where
  id : String
  name : String
  category : String
  buyPrice : ℚ
  sellPrice : ℚ
  isSold : Bool
  date : String
  sellDate : Option String
  notes : Option String
  shippingCost : Option ℚ
  shippingMethod : Option String
  smartType : Option String
  deriving Repr, DecidableEq

/-- The `TradeStats` interface of `src/types.ts`. -/
structure TradeStats where
  totalInvested : ℚ
  totalRevenue : ℚ
  closedLoopProfit : ℚ
  closedLoopRoi : ℚ
  itemCount : ℕ
  soldCount : ℕ
  closedLoopCount : ℕ
  deriving Repr, DecidableEq

/-- Derived lifecycle state of a record (spec §3 classification table,
matching the `FilterType` conditions in `src/App.tsx`). -/
inductive LifecycleState where
  | inventory
  | orphanSale
  | closedLoop
  | unclassified
  deriving Repr, DecidableEq

/-- Classification of a record from its two price fields alone. -/
def classify (t : Transaction) : LifecycleState :=
  if 0 < t.buyPrice ∧ t.sellPrice = 0 then .inventory
  else if t.buyPrice = 0 ∧ 0 < t.sellPrice then .orphanSale
  else if 0 < t.buyPrice ∧ 0 < t.sellPrice then .closedLoop
  else .unclassified

/-- The shipping cost used in profit computations:
`t.shippingCost || 0` (App.tsx line 65). -/
def shippingOr0 (t : Transaction) : ℚ :=
  jsNumOr0 t.shippingCost

/-- Platform fee: `(sellPrice + shipping) * 0.006` (App.tsx line 67). -/
def platformFee (sellPrice shipping : ℚ) : ℚ :=
  (sellPrice + shipping) * 0.006

/-- Net profit of one record:
`sellPrice - buyPrice - shipping - fee` (App.tsx line 70). -/
def netProfit (t : Transaction) : ℚ :=
  t.sellPrice - t.buyPrice - shippingOr0 t - platformFee t.sellPrice (shippingOr0 t)

/-- A record contributes to the closed-loop aggregates exactly when the
`stats` loop reaches the inner branch: it is marked sold and both prices
are positive (App.tsx lines 59 and 64). -/
def isSoldClosedLoop (t : Transaction) : Bool :=
  t.isSold && decide (0 < t.buyPrice) && decide (0 < t.sellPrice)

/-- Accumulator of the single `forEach` pass of the `stats` memo
(App.tsx lines 50-55). -/
structure StatsAcc where
  totalInvested : ℚ
  totalRevenue : ℚ
  closedLoopProfit : ℚ
  closedLoopCost : ℚ
  closedLoopCount : ℕ
  soldCount : ℕ
  deriving Repr, DecidableEq

def StatsAcc.init : StatsAcc :=
  ⟨0, 0, 0, 0, 0, 0⟩

/-- One iteration of the `transactions.forEach` loop of the `stats` memo
(App.tsx lines 57-77). -/
def statsStep (acc : StatsAcc) (t : Transaction) : StatsAcc :=
  let acc1 : StatsAcc := { acc with totalInvested := acc.totalInvested + t.buyPrice }
  if t.isSold then
    let acc2 : StatsAcc :=
      { acc1 with
        totalRevenue := acc1.totalRevenue + t.sellPrice
        soldCount := acc1.soldCount + 1 }
    if 0 < t.buyPrice ∧ 0 < t.sellPrice then
      { acc2 with
        closedLoopProfit := acc2.closedLoopProfit + netProfit t
        closedLoopCost := acc2.closedLoopCost + t.buyPrice
        closedLoopCount := acc2.closedLoopCount + 1 }
    else acc2
  else acc1

/-- The `stats` memo of `src/App.tsx` (lines 49-90): one pass over the
collection followed by the ROI division guarded against zero cost. -/
def stats (transactions : List Transaction) : TradeStats :=
  let a := transactions.foldl statsStep StatsAcc.init
  { totalInvested := a.totalInvested
    totalRevenue := a.totalRevenue
    closedLoopProfit := a.closedLoopProfit
    closedLoopRoi := if 0 < a.closedLoopCost then a.closedLoopProfit / a.closedLoopCost * 100 else 0
    itemCount := transactions.length
    soldCount := a.soldCount
    closedLoopCount := a.closedLoopCount }

/-! ### String primitives (JavaScript `includes`, `split`, `trim`,
`toLowerCase`) over `List Char` -/

/-- Does the list start with the given pattern? -/
def strStartsWith : List Char → List Char → Bool
  | _, [] => true
  | [], _ :: _ => false
  | h :: t, n :: m => h == n && strStartsWith t m

/-- JavaScript `hay.includes(need)`: the pattern occurs somewhere. -/
def strContainsL (hay need : List Char) : Bool :=
  match hay with
  | [] => need.isEmpty
  | _ :: t => strStartsWith hay need || strContainsL t need

/-- `String` wrapper for `includes`. -/
def strContains (hay need : String) : Bool :=
  strContainsL hay.data need.data

/-- JavaScript `s.split(sep)` for a non-empty separator: scan the string,
emitting the accumulated chunk at each leftmost non-overlapping occurrence
of the separator; `skip` counts characters of a just-matched separator
still to be consumed. -/
def splitScan (sep : List Char) : List Char → ℕ → List Char → List (List Char)
  | cur, _, [] => [cur.reverse]
  | cur, Nat.succ k, _ :: rest => splitScan sep cur k rest
  | cur, 0, c :: rest =>
    if strStartsWith (c :: rest) sep then
      cur.reverse :: splitScan sep [] (sep.length - 1) rest
    else
      splitScan sep (c :: cur) 0 rest

/-- `String` wrapper for `split`. -/
def splitOnSep (s sep : String) : List String :=
  (splitScan sep.data [] 0 s.data).map List.asString

/-- JavaScript `trim`: drop whitespace from both ends. -/
def trimStr (s : String) : String :=
  (((s.data.dropWhile Char.isWhitespace).reverse.dropWhile Char.isWhitespace).reverse).asString

/-- JavaScript `toLowerCase` (ASCII letters; other characters, CJK
included, are unchanged). -/
def lowerStr (s : String) : String :=
  (s.data.map Char.toLower).asString

/-! ### Collection operations of `src/App.tsx` -/

/-- `prev.find(t => t.id === i)`. -/
def findById (l : List Transaction) (i : String) : Option Transaction :=
  l.find? (fun t => t.id == i)

/-- The audit-trail separator of merge provenance. -/
def matchSeparator : String := " | Sold Match: "

/-- The `updatedBuyItem` built inside `handleMerge` (App.tsx lines
206-216): the buy record absorbing the sell record's sale information. -/
def mergedRecord (buyItem sellItem : Transaction) : Transaction :=
  { buyItem with
    sellPrice := sellItem.sellPrice
    isSold := true
    sellDate := some sellItem.date
    notes := some ((buyItem.notes.getD "") ++ matchSeparator ++ sellItem.name)
    shippingCost := some (match sellItem.shippingCost with
      | some c => c
      | none => 5.6)
    shippingMethod := some (jsOrStr sellItem.shippingMethod "STO")
    smartType := jsOrOpt buyItem.smartType sellItem.smartType }

/-- `handleMerge` (App.tsx lines 198-223): the buy record absorbs the sell
record's sale information and the sell record is filtered out. -/
def handleMerge (prev : List Transaction) (buyId sellId : String) : List Transaction :=
  match findById prev buyId, findById prev sellId with
  | some buyItem, some sellItem =>
    let updatedBuyItem := mergedRecord buyItem sellItem
    (prev.map (fun t => if t.id == buyId then updatedBuyItem else t)).filter
      (fun t => !(t.id == sellId))
  | _, _ => prev

/-- The sale name recovered from the audit notes by the `SPLIT` branch:
`parts[1].trim()` when the separator occurs, the current name otherwise. -/
def recoveredSellName (itemToDelete : Transaction) : String :=
  let notes := itemToDelete.notes.getD ""
  if strContains notes matchSeparator then
    trimStr ((splitOnSep notes matchSeparator).getD 1 "")
  else itemToDelete.name

/-- The notes kept on the restored buy record: `parts[0].trim()` when the
separator occurs, the unchanged notes otherwise. -/
def recoveredBuyNotes (itemToDelete : Transaction) : String :=
  let notes := itemToDelete.notes.getD ""
  if strContains notes matchSeparator then
    trimStr ((splitOnSep notes matchSeparator).getD 0 "")
  else notes

/-- `restoredBuy` of the `SPLIT` branch (App.tsx lines 294-304). -/
def restoredBuyOf (itemToDelete : Transaction) : Transaction :=
  { itemToDelete with
    name := itemToDelete.name
    sellPrice := 0
    isSold := false
    sellDate := none
    notes := some (recoveredBuyNotes itemToDelete)
    shippingCost := none
    shippingMethod := none
    smartType := itemToDelete.smartType }

/-- `restoredSell` of the `SPLIT` branch (App.tsx lines 310-323). -/
def restoredSellOf (itemToDelete : Transaction) (newSellId : String) : Transaction :=
  { id := newSellId
    name := recoveredSellName itemToDelete
    category := itemToDelete.category
    buyPrice := 0
    sellPrice := itemToDelete.sellPrice
    isSold := true
    date := jsOrStr itemToDelete.sellDate itemToDelete.date
    sellDate := itemToDelete.sellDate
    notes := some ("Unmerged from " ++ itemToDelete.name)
    shippingCost := itemToDelete.shippingCost
    shippingMethod := itemToDelete.shippingMethod
    smartType := itemToDelete.smartType }

/-- The `SPLIT` branch of `executeDelete` (App.tsx lines 272-326):
restore a closed-loop record into an inventory record (same id) and a new
orphan-sale record (`newSellId` models `crypto.randomUUID()`). -/
def executeSplit (prev : List Transaction) (id newSellId : String) : List Transaction :=
  match findById prev id with
  | none => prev
  | some itemToDelete =>
    restoredSellOf itemToDelete newSellId ::
      prev.map (fun t => if t.id == id then restoredBuyOf itemToDelete else t)

/-- The `DELETE` branch of `executeDelete` (App.tsx line 329). -/
def permanentDelete (prev : List Transaction) (id : String) : List Transaction :=
  prev.filter (fun t => !(t.id == id))

/-- The combined delete flow: `handleDeleteRequest` picks `SPLIT` for a
sold closed-loop record and `DELETE` otherwise (App.tsx lines 252-264),
then `executeDelete` runs the chosen branch. -/
def handleDeleteFlow (prev : List Transaction) (id newSellId : String) : List Transaction :=
  match findById prev id with
  | none => prev
  | some item =>
    if 0 < item.buyPrice ∧ 0 < item.sellPrice ∧ item.isSold then
      executeSplit prev id newSellId
    else
      permanentDelete prev id

/-- Adding a brand-new record (`handleSave`, non-editing path,
App.tsx line 115). -/
def handleSaveNew (prev : List Transaction) (t : Transaction) : List Transaction :=
  t :: prev

/-- Saving an edited record (`handleSave`, editing path, App.tsx line 113). -/
def handleSaveEdit (prev : List Transaction) (t : Transaction) : List Transaction :=
  prev.map (fun x => if x.id == t.id then t else x)

/-- The fields the UI passes to `handleQuickUpdate`
(see `TransactionList`: date, buyPrice, sellPrice, shippingCost,
shippingMethod). -/
inductive QField where
  | date
  | buyPrice
  | sellPrice
  | shippingCost
  | shippingMethod
  deriving Repr, DecidableEq

/-- The value passed with a quick update. -/
inductive QValue where
  | num (q : ℚ)
  | str (s : String)
  deriving Repr, DecidableEq

/-- The per-record update of `handleQuickUpdate` (App.tsx lines 227-248):
a sell-price update also toggles `isSold`, defaults the sell date to today
and, when absent, the shipping method and cost. -/
def applyQuickUpdate (today : String) (f : QField) (v : QValue) (t : Transaction) : Transaction :=
  match f, v with
  | .sellPrice, .num q =>
    let newSold := decide (0 < q)
    let base := { t with sellPrice := q, isSold := newSold }
    if newSold && !(jsTruthyStr t.sellDate) then
      if !(jsTruthyStr t.shippingMethod) then
        { base with sellDate := some today, shippingMethod := some "STO", shippingCost := some 5.6 }
      else
        { base with sellDate := some today }
    else base
  | .date, .str s => { t with date := s }
  | .buyPrice, .num q => { t with buyPrice := q }
  | .shippingCost, .num q => { t with shippingCost := some q }
  | .shippingMethod, .str s => { t with shippingMethod := some s }
  | _, _ => t

/-- `handleQuickUpdate`: map the update over the record with the given id. -/
def handleQuickUpdate (prev : List Transaction) (id today : String)
    (f : QField) (v : QValue) : List Transaction :=
  prev.map (fun t => if t.id == id then applyQuickUpdate today f v t else t)

/-! ### JSON values and the import reconciler (`parseAndImport`) -/

/-- A parsed JSON value (output of the runtime `JSON.parse`). -/
inductive Json where
  | null
  | bool (b : Bool)
  | num (q : ℚ)
  | str (s : String)
  | arr (elems : List Json)
  | obj (fields : List (String × Json))

/-- JavaScript truthiness of a JSON value (numbers here are exact, so no
NaN case arises for parsed numbers). -/
def jsTruthy : Json → Bool
  | .null => false
  | .bool b => b
  | .num q => decide (q ≠ 0)
  | .str s => s ≠ ""
  | .arr _ => true
  | .obj _ => true

/-- Property access `item.k`: `none` models `undefined`.  `JSON.parse`
keeps the last of duplicate keys, hence the lookup from the right. -/
def jsGet (j : Json) (k : String) : Option Json :=
  match j with
  | .obj fields => (fields.reverse.find? (fun p => p.1 == k)).map (fun p => p.2)
  | _ => none

def jsTruthyOpt (o : Option Json) : Bool :=
  match o with
  | none => false
  | some j => jsTruthy j

/-- A string-valued field.  Non-string JSON garbage in a string-typed field
is not modelled and is treated as absent. -/
def jsGetStr (j : Json) (k : String) : Option String :=
  match jsGet j k with
  | some (.str s) => some s
  | _ => none

def natFromDigits (cs : List Char) : ℕ :=
  cs.foldl (fun a c => a * 10 + (c.toNat - '0'.toNat)) 0

/-- JavaScript `Number(string)` for plain decimal literals: trimmed, empty
means 0, optional sign, digits with an optional fraction part.  Exponent
and hexadecimal forms are not modelled (they yield NaN here). -/
def strToNumber (s : String) : Option ℚ :=
  let cs := (trimStr s).data
  if cs.isEmpty then some 0
  else
    let (sign, cs2) : ℚ × List Char :=
      match cs with
      | '-' :: r => (-1, r)
      | '+' :: r => (1, r)
      | r => (1, r)
    let intPart := cs2.takeWhile Char.isDigit
    let rest := cs2.dropWhile Char.isDigit
    match rest with
    | [] => if intPart.isEmpty then none else some (sign * natFromDigits intPart)
    | '.' :: fr =>
      let fracPart := fr.takeWhile Char.isDigit
      let rest2 := fr.dropWhile Char.isDigit
      if rest2.isEmpty && (!intPart.isEmpty || !fracPart.isEmpty) then
        some (sign * ((natFromDigits intPart : ℚ) +
          (natFromDigits fracPart : ℚ) / 10 ^ fracPart.length))
      else none
    | _ => none

/-- JavaScript `Number(x)` on a JSON value (`none` = NaN).  For arrays the
single-element unwrapping of JS string conversion is modelled one level
deep. -/
def jsNumberOf : Json → Option ℚ
  | .null => some 0
  | .bool b => some (if b then 1 else 0)
  | .num q => some q
  | .str s => strToNumber s
  | .arr [] => some 0
  | .arr [.num q] => some q
  | .arr [.str s] => strToNumber s
  | .arr _ => none
  | .obj _ => none

/-- `Number(item.k)` where the field may be absent (`Number(undefined)` is
NaN). -/
def jsToNumber (o : Option Json) : Option ℚ :=
  match o with
  | none => none
  | some j => jsNumberOf j

/-- The per-element repair of `parseAndImport` (App.tsx lines 408-443):
defaults for id/name/category/date, `Number(x) || 0` price coercion,
`!!` on `isSold`, sell-date inference, and the shipping-defaulting rule
for sold items. -/
def repairItem (freshId today : String) (item : Json) : Transaction :=
  let isSold := jsTruthyOpt (jsGet item "isSold")
  let shippingMethod0 := jsGetStr item "shippingMethod"
  let shippingCost0 := jsToNumber (jsGet item "shippingCost")
  let fixed : Option String × Option ℚ :=
    if isSold then
      if !(jsTruthyStr shippingMethod0) then (some "STO", some 5.6)
      else
        match shippingCost0 with
        | some c => (shippingMethod0, some c)
        | none =>
          (shippingMethod0, some (
            if shippingMethod0 == some "STO" then (5.6 : ℚ)
            else if shippingMethod0 == some "SF" then 18
            else if shippingMethod0 == some "JD" then 15
            else 0))
    else (shippingMethod0, shippingCost0)
  { id := jsOrStr (jsGetStr item "id") freshId
    name := jsOrStr (jsGetStr item "name") "Unknown Item"
    category := jsOrStr (jsGetStr item "category") "Electronics"
    buyPrice := jsNumOr0 (jsToNumber (jsGet item "buyPrice"))
    sellPrice := jsNumOr0 (jsToNumber (jsGet item "sellPrice"))
    isSold := isSold
    date := jsOrStr (jsGetStr item "date") today
    sellDate :=
      (if jsTruthyStr (jsGetStr item "sellDate") then jsGetStr item "sellDate"
       else if jsTruthyOpt (jsGet item "isSold") then jsGetStr item "date"
       else none)
    notes := jsGetStr item "notes"
    shippingCost := some (jsNumOr0 fixed.2)
    shippingMethod := fixed.1
    smartType := jsGetStr item "smartType" }

/-- Repair of the whole parsed array; `freshIds` models the stream of
`crypto.randomUUID()` values. -/
def repairAll (freshIds : ℕ → String) (today : String) (items : List Json) :
    List Transaction :=
  items.enum.map (fun p => repairItem (freshIds p.1) today p.2)

inductive ImportMode where
  | merge
  | replace
  deriving Repr, DecidableEq

/-- Installing the repaired records (App.tsx lines 445-451): `REPLACE`
takes the repaired array wholesale; `MERGE` drops repaired records whose
id already exists and appends the rest. -/
def applyImportMode (current repaired : List Transaction) (mode : ImportMode) :
    List Transaction :=
  match mode with
  | .replace => repaired
  | .merge => current ++ repaired.filter (fun t => !(current.any (fun e => e.id == t.id)))

/-- The span matched by the regex `\[[\s\S]*\]`: from the first `[` to the
last `]`, provided the last `]` comes after the first `[`. -/
def extractSpan (s : String) : Option String :=
  match s.data.findIdx? (fun c => c == '['), s.data.reverse.findIdx? (fun c => c == ']') with
  | some i, some jr =>
    let j := s.data.length - 1 - jr
    if i < j then some (((s.data.drop i).take (j - i + 1)).asString) else none
  | _, _ => none

/-- The first parse attempt of `parseAndImport`: parse the bracket span;
a failed parse, or a falsy result, leaves `parsedData` null. -/
def spanParsed (parse : String → Option Json) (jsonStr : String) : Option Json :=
  match extractSpan jsonStr with
  | some sub =>
    match parse sub with
    | some v => if jsTruthy v then some v else none
    | none => none
  | none => none

/-- The value `parsedData` holds when `parseAndImport` reaches the
`Array.isArray` check: the span parse when it yielded a truthy value,
otherwise the parse of the whole input (`none` = that parse threw). -/
def parsedValue (parse : String → Option Json) (jsonStr : String) : Option Json :=
  match spanParsed parse jsonStr with
  | some v => some v
  | none => parse jsonStr

/-- `parseAndImport` (App.tsx lines 379-466), parameterised by the runtime
`parse` (`JSON.parse`; `none` = it throws).  Returns the new collection and
the error message when the import was rejected; on every error the
collection is returned unchanged. -/
def parseAndImport (parse : String → Option Json) (freshIds : ℕ → String)
    (today : String) (current : List Transaction) (jsonStr : String)
    (mode : ImportMode) : List Transaction × Option String :=
  if trimStr jsonStr = "" then (current, some "内容为空")
  else
    match parsedValue parse jsonStr with
    | none => (current, some "无法解析 JSON 数据。请确保粘贴了完整的数组 [...] 内容。")
    | some (.arr items) =>
      (applyImportMode current (repairAll freshIds today items) mode, none)
    | some _ => (current, some "格式错误：必须是 JSON 数组 [...]")

/-! ### Similarity / matching module (`MatchView`: `detectCategory`,
`calculateScore`) -/

/-- The `CATEGORY_RULES` keyword table of `MatchView` (rule ids with their
keyword lists, in source order). -/
def CATEGORY_RULES : List (String × List String) :=
  [("keyboard", ["键盘", "套件", "轴", "键帽", "客制化", "keyboard", "keycap",
     "switch", "ttc", "vgn", "gasket", "pcb", "卫星轴", "试轴器"]),
   ("mouse", ["鼠标", "mouse", "gpw", "毒蝰", "雷蛇", "罗技", "卓威", "垫"]),
   ("phone", ["手机", "iphone", "ipad", "android", "小米", "华为", "三星",
     "redmi", "vivo", "oppo", "一加", "iqoo", "pro", "max", "ultra"]),
   ("audio", ["耳机", "headphone", "airpods", "tws", "pro", "buds", "音响",
     "speaker", "麦克风"]),
   ("pc", ["显卡", "gpu", "cpu", "内存", "硬盘", "主板", "散热", "机箱",
     "电源", "显示器", "屏幕", "ssd", "ddr", "rtx", "gtx"]),
   ("virtual", ["会员", "网盘", "充值", "兑换", "码", "天卡", "周卡", "月卡",
     "年卡", "积分", "教程"]),
   ("camera", ["相机", "镜头", "sony", "canon", "nikon", "富士", "ccd"])]

/-- `detectCategory`: the first rule one of whose keywords occurs in the
lower-cased name (the id of the matching rule; `none` when no rule fires). -/
def detectCategory (name : String) : Option String :=
  (CATEGORY_RULES.find? (fun r => r.2.any (fun k => strContains (lowerStr name) k))).map
    (fun r => r.1)

/-- Score term A of `calculateScore`: smart-tag agreement (+80 equal,
−50 unequal, skipped unless both tags are present and truthy). -/
def smartTypeScore (buyItem sellItem : Transaction) : ℤ :=
  if jsTruthyStr buyItem.smartType && jsTruthyStr sellItem.smartType then
    if buyItem.smartType == sellItem.smartType then 80 else -50
  else 0

/-- Score term B: keyword-category agreement (+40 same rule, −20 different
rules, skipped unless both names are categorised). -/
def categoryScore (s1 s2 : String) : ℤ :=
  match detectCategory s1, detectCategory s2 with
  | some c1, some c2 => if c1 == c2 then 40 else -20
  | _, _ => 0

/-- Score term C: substring containment in either direction (+30). -/
def inclusionScore (s1 s2 : String) : ℤ :=
  if strContains s1 s2 || strContains s2 s1 then 30 else 0

def isTokenAlnum (c : Char) : Bool :=
  decide (('a' ≤ c ∧ c ≤ 'z') ∨ ('0' ≤ c ∧ c ≤ '9'))

def isCJKChar (c : Char) : Bool :=
  decide (0x4e00 ≤ c.toNat ∧ c.toNat ≤ 0x9fa5)

/-- The token regex `[a-z0-9]+|[一-龥]` applied globally: maximal
ASCII alphanumeric runs, and single CJK ideographs; `cur` accumulates the
current alphanumeric run (reversed). -/
def getTokensAux (cur : List Char) : List Char → List (List Char)
  | [] => if cur.isEmpty then [] else [cur.reverse]
  | c :: rest =>
    if isTokenAlnum c then getTokensAux (c :: cur) rest
    else
      (if cur.isEmpty then [] else [cur.reverse]) ++
        (if isCJKChar c then [c] :: getTokensAux [] rest else getTokensAux [] rest)

def getTokensL (s : List Char) : List (List Char) :=
  getTokensAux [] s

/-- Score term D: 10 points per token shared between the two names
(`Set` semantics: duplicates collapse). -/
def tokenOverlapScore (s1 s2 : String) : ℤ :=
  ((getTokensL s1.data).dedup.countP (fun tok => (getTokensL s2.data).contains tok) : ℤ) * 10

/-- `calculateScore` of `MatchView` (part_002 lines 92-140): the additive
similarity score of a (purchase, sale) pair, computed on lower-cased
names. -/
def calculateScore (buyItem sellItem : Transaction) : ℤ :=
  smartTypeScore buyItem sellItem
    + categoryScore (lowerStr buyItem.name) (lowerStr sellItem.name)
    + inclusionScore (lowerStr buyItem.name) (lowerStr sellItem.name)
    + tokenOverlapScore (lowerStr buyItem.name) (lowerStr sellItem.name)

/-- Stable insertion keeping scores in descending order (ties keep their
original relative order, as a stable `Array.sort`). -/
def insertDesc (p : ℤ × Transaction) : List (ℤ × Transaction) → List (ℤ × Transaction)
  | [] => [p]
  | h :: t => if h.1 < p.1 then p :: h :: t else h :: insertDesc p t

/-- The ranked candidate ordering of `filteredSells` when an anchor is
selected: score every candidate and sort by score descending (stable). -/
def rankCandidates (anchor : Transaction) (candidates : List Transaction) :
    List Transaction :=
  ((candidates.map (fun c => (calculateScore anchor c, c))).foldl
    (fun acc p => insertDesc p acc) []).map (fun p => p.2)

/-! ### Specification-side characterizations used in the theorems -/

/-- Total invested: sum of every record's `buyPrice`. -/
def sumBuyPrices (l : List Transaction) : ℚ :=
  (l.map (fun t => t.buyPrice)).sum

/-- Total revenue: sum of `sellPrice` over records marked sold. -/
def sumSoldRevenue (l : List Transaction) : ℚ :=
  ((l.filter (fun t => t.isSold)).map (fun t => t.sellPrice)).sum

/-- Closed-loop profit as the code computes it: net profit summed over
records that are marked sold and have both prices positive. -/
def soldClosedLoopProfit (l : List Transaction) : ℚ :=
  ((l.filter isSoldClosedLoop).map netProfit).sum

/-- Closed-loop cost basis: `buyPrice` summed over the same records. -/
def soldClosedLoopCost (l : List Transaction) : ℚ :=
  ((l.filter isSoldClosedLoop).map (fun t => t.buyPrice)).sum

def countSoldRecords (l : List Transaction) : ℕ :=
  (l.filter (fun t => t.isSold)).length

def countSoldClosedLoop (l : List Transaction) : ℕ :=
  (l.filter isSoldClosedLoop).length

/-- The claim C3 reading of closed-loop profit: net profit summed over
records that are `ClosedLoop` per the classification table alone
(no `isSold` requirement). -/
def tableClosedLoopProfit (l : List Transaction) : ℚ :=
  ((l.filter (fun t => classify t == LifecycleState.closedLoop)).map netProfit).sum

/-- The outcome of `parseAndImport` once a JSON value has been obtained:
an array is repaired and installed, anything else is the non-array
validation error. -/
def importResultOf (freshIds : ℕ → String) (today : String)
    (current : List Transaction) (mode : ImportMode) (v : Json) :
    List Transaction × Option String :=
  match v with
  | .arr items => (applyImportMode current (repairAll freshIds today items) mode, none)
  | _ => (current, some "格式错误：必须是 JSON 数组 [...]")

/-- The record ids of a collection. -/
def idsOf (l : List Transaction) : List String :=
  l.map (fun t => t.id)

/-! ### Helper lemmas: lookup, ids and filters -/

theorem findById_eq_of_nodup (l : List Transaction) (r : Transaction)
    (hnd : (idsOf l).Nodup) (hr : r ∈ l) :
    findById l r.id = some r := by
  induction l with
  | nil => cases hr
  | cons t l ih =>
    rw [idsOf, List.map_cons, List.nodup_cons] at hnd
    rcases List.mem_cons.mp hr with h | h
    · subst h
      simp [findById]
    · have hne : (t.id == r.id) = false := by
        refine beq_eq_false_iff_ne.mpr (fun he => hnd.1 ?_)
        exact he ▸ List.mem_map.mpr ⟨r, h, rfl⟩
      simpa [findById, List.find?_cons, hne] using ih hnd.2 h

theorem findById_map (l : List Transaction) (f : Transaction → Transaction)
    (hf : ∀ t, (f t).id = t.id) (b : String) :
    findById (l.map f) b = (findById l b).map f := by
  induction l with
  | nil => simp [findById]
  | cons t l ih =>
    cases hc : (t.id == b) with
    | true => simp [findById, List.find?_cons, hf, hc]
    | false => simpa [findById, List.find?_cons, hf, hc] using ih

theorem findById_map_filter (l : List Transaction) (f : Transaction → Transaction)
    (hf : ∀ t, (f t).id = t.id) (b s : String) (hbs : b ≠ s) :
    findById ((l.map f).filter (fun t => !(t.id == s))) b = (findById l b).map f := by
  induction l with
  | nil => simp [findById]
  | cons t l ih =>
    cases hts : (t.id == s) with
    | true =>
      have hts' : t.id = s := eq_of_beq hts
      have hb : (t.id == b) = false := beq_eq_false_iff_ne.mpr (by
        intro he
        exact hbs (hts' ▸ he).symm)
      simpa [findById, List.filter_cons, List.find?_cons, hf, hts, hb] using ih
    | false =>
      cases hc : (t.id == b) with
      | true => simp [findById, List.filter_cons, List.find?_cons, hf, hts, hc]
      | false => simpa [findById, List.filter_cons, List.find?_cons, hf, hts, hc] using ih

theorem idsOf_map_eq (l : List Transaction) (f : Transaction → Transaction)
    (hf : ∀ t, (f t).id = t.id) :
    idsOf (l.map f) = idsOf l := by
  simp [idsOf, List.map_map, Function.comp, hf]

theorem idsOf_filter_ne (l : List Transaction) (s : String) :
    idsOf (l.filter (fun t => !(t.id == s))) = (idsOf l).filter (fun i => !(i == s)) := by
  induction l with
  | nil => simp [idsOf]
  | cons t l ih =>
    cases hts : (t.id == s) with
    | true => simpa [idsOf, List.filter_cons, hts] using ih
    | false => simpa [idsOf, List.filter_cons, hts] using ih

theorem filter_ne_id_of_not_mem (l : List Transaction) (s : String)
    (h : s ∉ idsOf l) :
    l.filter (fun t => !(t.id == s)) = l := by
  refine List.filter_eq_self.mpr (fun t ht => ?_)
  have : t.id ≠ s := fun he => h (he ▸ List.mem_map.mpr ⟨t, ht, rfl⟩)
  simpa using this

theorem length_filter_ne_of_nodup (l : List Transaction) (s : String)
    (hnd : (idsOf l).Nodup) (hmem : s ∈ idsOf l) :
    (l.filter (fun t => !(t.id == s))).length = l.length - 1 := by
  induction l with
  | nil => cases hmem
  | cons t l ih =>
    rw [idsOf, List.map_cons, List.nodup_cons] at hnd
    cases hts : (t.id == s) with
    | true =>
      have hts' : t.id = s := eq_of_beq hts
      rw [List.filter_cons]
      simp only [hts, Bool.not_true, if_false]
      rw [filter_ne_id_of_not_mem l s (hts' ▸ hnd.1)]
      simp
    | false =>
      have hts' : t.id ≠ s := by simpa using hts
      have hs : s ∈ idsOf l := by
        rcases List.mem_cons.mp (by simpa only [idsOf, List.map_cons] using hmem) with h | h
        · exact absurd h.symm hts'
        · exact h
      have hpos : 0 < l.length := by
        rcases List.mem_map.mp hs with ⟨x, hx, _⟩
        exact List.length_pos.mpr (List.ne_nil_of_mem hx)
      rw [List.filter_cons]
      simp only [hts, Bool.not_false, if_true]
      rw [List.length_cons, List.length_cons, ih hnd.2 hs]
      omega

theorem map_replace_filter (l : List Transaction) (i : String) (upd : Transaction)
    (hupd : upd.id = i) :
    (l.map (fun t => if t.id == i then upd else t)).filter (fun t => !(t.id == i)) =
      l.filter (fun t => !(t.id == i)) := by
  induction l with
  | nil => rfl
  | cons t l ih =>
    cases hti : (t.id == i) with
    | true =>
      have h' : t.id = i := eq_of_beq hti
      simpa [List.filter_cons, h', hupd] using ih
    | false =>
      have h' : t.id ≠ i := by simpa using hti
      simpa [List.filter_cons, h'] using ih

/-! ### Helper lemmas: the stats fold -/

theorem stats_foldl_eq (l : List Transaction) (a : StatsAcc) :
    l.foldl statsStep a =
      { totalInvested := a.totalInvested + sumBuyPrices l
        totalRevenue := a.totalRevenue + sumSoldRevenue l
        closedLoopProfit := a.closedLoopProfit + soldClosedLoopProfit l
        closedLoopCost := a.closedLoopCost + soldClosedLoopCost l
        closedLoopCount := a.closedLoopCount + countSoldClosedLoop l
        soldCount := a.soldCount + countSoldRecords l } := by
  induction l generalizing a with
  | nil =>
    simp [sumBuyPrices, sumSoldRevenue, soldClosedLoopProfit, soldClosedLoopCost,
      countSoldClosedLoop, countSoldRecords]
  | cons t l ih =>
    rw [List.foldl_cons, ih]
    cases hs : t.isSold with
    | false =>
      have hscl : isSoldClosedLoop t = false := by simp [isSoldClosedLoop, hs]
      simp [statsStep, hs, sumBuyPrices,
        sumSoldRevenue, soldClosedLoopProfit, soldClosedLoopCost,
        countSoldClosedLoop, countSoldRecords, List.filter_cons,
        hscl, StatsAcc.mk.injEq]
      repeat' apply And.intro
      all_goals first | ring | omega
    | true =>
      by_cases hcl : 0 < t.buyPrice ∧ 0 < t.sellPrice
      · have hscl : isSoldClosedLoop t = true := by
          simp [isSoldClosedLoop, hs, hcl.1, hcl.2]
        simp [statsStep, hs, sumBuyPrices, sumSoldRevenue,
          soldClosedLoopProfit, soldClosedLoopCost, countSoldClosedLoop,
          countSoldRecords, List.filter_cons, hscl, if_pos hcl,
          StatsAcc.mk.injEq]
        repeat' apply And.intro
        all_goals first | ring | omega
      · have hscl : isSoldClosedLoop t = false := by
          rcases not_and_or.mp hcl with h | h <;>
            simp [isSoldClosedLoop, hs, h]
        simp [statsStep, hs, sumBuyPrices, sumSoldRevenue,
          soldClosedLoopProfit, soldClosedLoopCost, countSoldClosedLoop,
          countSoldRecords, List.filter_cons, hscl, if_neg hcl,
          StatsAcc.mk.injEq]
        repeat' apply And.intro
        all_goals first | ring | omega

theorem stats_eq (l : List Transaction) :
    stats l =
      { totalInvested := sumBuyPrices l
        totalRevenue := sumSoldRevenue l
        closedLoopProfit := soldClosedLoopProfit l
        closedLoopRoi := if 0 < soldClosedLoopCost l then
            soldClosedLoopProfit l / soldClosedLoopCost l * 100 else 0
        itemCount := l.length
        soldCount := countSoldRecords l
        closedLoopCount := countSoldClosedLoop l } := by
  simp only [stats, stats_foldl_eq l StatsAcc.init]
  simp [StatsAcc.init]

/-! ### Helper lemmas: separators, containment and splitting -/

theorem strStartsWith_append (n y : List Char) : strStartsWith (n ++ y) n = true := by
  induction n with
  | nil => cases y <;> rfl
  | cons c m ih => simp [strStartsWith, ih]

theorem strContainsL_append_mid (x n y : List Char) :
    strContainsL (x ++ n ++ y) n = true := by
  induction x with
  | nil =>
    cases n with
    | nil =>
      cases y with
      | nil => rfl
      | cons c r => simp [strContainsL, strStartsWith]
    | cons c m =>
      rw [List.nil_append, List.cons_append, strContainsL, ← List.cons_append,
        strStartsWith_append]
      simp
  | cons c xs ih =>
    rw [List.cons_append, List.cons_append, strContainsL]
    simp only [Bool.or_eq_true]
    right
    simpa using ih

theorem splitScan_skip_append (sep : List Char) (pre : List Char) :
    ∀ (cur b : List Char),
    splitScan sep cur pre.length (pre ++ b) = splitScan sep cur 0 b := by
  induction pre with
  | nil => intro cur b; rfl
  | cons p pre' ih =>
    intro cur b
    rw [List.length_cons, List.cons_append, splitScan]
    exact ih cur b

theorem splitScan_no_mid (s0 s1 : Char) (srest : List Char) :
    ∀ (b cur : List Char), (∀ c ∈ b, c ≠ s1) →
    splitScan (s0 :: s1 :: srest) cur 0 b = [cur.reverse ++ b] := by
  intro b
  induction b with
  | nil => intro cur _; simp [splitScan]
  | cons c rest ih =>
    intro cur hb
    have hcond : strStartsWith (c :: rest) (s0 :: s1 :: srest) = false := by
      cases rest with
      | nil => simp [strStartsWith]
      | cons c2 r2 =>
        have : c2 ≠ s1 := hb c2 (by simp)
        simp [strStartsWith, this]
    rw [splitScan, if_neg (by simp [hcond])]
    rw [ih (c :: cur) (fun x hx => hb x (List.mem_cons_of_mem _ hx))]
    simp

theorem splitScan_mid (s0 s1 : Char) (srest : List Char) (hns : s0 ≠ s1) :
    ∀ (a b cur : List Char), (∀ c ∈ a, c ≠ s1) → (∀ c ∈ b, c ≠ s1) →
    splitScan (s0 :: s1 :: srest) cur 0 (a ++ (s0 :: s1 :: (srest ++ b))) =
      [cur.reverse ++ a, b] := by
  intro a
  induction a with
  | nil =>
    intro b cur _ hb
    have hform : s0 :: s1 :: (srest ++ b) = (s0 :: s1 :: srest) ++ b := by simp
    rw [List.nil_append, splitScan,
      if_pos (by rw [hform]; exact strStartsWith_append _ _)]
    have hlen : (s0 :: s1 :: srest).length - 1 = (s1 :: srest).length := by simp
    have hskip : splitScan (s0 :: s1 :: srest) [] ((s0 :: s1 :: srest).length - 1)
        (s1 :: (srest ++ b)) = splitScan (s0 :: s1 :: srest) [] 0 b := by
      have h1 : s1 :: (srest ++ b) = (s1 :: srest) ++ b := by simp
      rw [hlen, h1, splitScan_skip_append]
    rw [hskip, splitScan_no_mid s0 s1 srest b [] hb]
    simp
  | cons c a' ih =>
    intro b cur ha hb
    have hc : c ≠ s1 := ha c (by simp)
    have hcond : strStartsWith (c :: (a' ++ (s0 :: s1 :: (srest ++ b))))
        (s0 :: s1 :: srest) = false := by
      cases ha' : a' with
      | nil =>
        subst ha'
        simp [strStartsWith, hns]
      | cons c2 r2 =>
        have : c2 ≠ s1 := ha c2 (by simp [ha'])
        subst ha'
        simp [strStartsWith, this]
    rw [List.cons_append, splitScan, if_neg (by simp [hcond])]
    rw [ih b (c :: cur) (fun x hx => ha x (List.mem_cons_of_mem _ hx)) hb]
    simp

theorem matchSeparator_data :
    matchSeparator.data = ' ' :: '|' :: " Sold Match: ".data := rfl

theorem splitOnSep_around_separator (a b : String)
    (ha : ∀ c ∈ a.data, c ≠ '|') (hb : ∀ c ∈ b.data, c ≠ '|') :
    splitOnSep (a ++ matchSeparator ++ b) matchSeparator = [a, b] := by
  have hdata : (a ++ matchSeparator ++ b).data =
      a.data ++ (' ' :: '|' :: (" Sold Match: ".data ++ b.data)) := by
    simp [String.data_append, matchSeparator_data]
  rw [splitOnSep, hdata, matchSeparator_data,
    splitScan_mid ' ' '|' (" Sold Match: ".data) (by decide) a.data b.data [] ha hb]
  simp [List.asString]

theorem strContains_around_separator (a b : String) :
    strContains (a ++ matchSeparator ++ b) matchSeparator = true := by
  rw [strContains]
  have hdata : (a ++ matchSeparator ++ b).data =
      a.data ++ matchSeparator.data ++ b.data := by
    simp [String.data_append]
  rw [hdata]
  exact strContainsL_append_mid _ _ _

/-! ### Helper lemmas: merge and split characterizations -/

theorem findById_some_mem (l : List Transaction) (i : String) (B : Transaction)
    (h : findById l i = some B) : B ∈ l ∧ B.id = i := by
  refine ⟨List.mem_of_find?_eq_some h, ?_⟩
  have := List.find?_some h
  exact eq_of_beq this

theorem mergedRecord_id (B S : Transaction) : (mergedRecord B S).id = B.id := rfl

theorem handleMerge_found (l : List Transaction) (buyId sellId : String)
    (B S : Transaction) (hb : findById l buyId = some B)
    (hs : findById l sellId = some S) :
    handleMerge l buyId sellId =
      (l.map (fun t => if t.id == buyId then mergedRecord B S else t)).filter
        (fun t => !(t.id == sellId)) := by
  simp [handleMerge, hb, hs]

theorem merge_map_preserves_id (buyId : String) (B S : Transaction)
    (hB : B.id = buyId) (t : Transaction) :
    ((fun t => if t.id == buyId then mergedRecord B S else t) t).id = t.id := by
  by_cases h : (t.id == buyId) = true
  · simp only [h, if_true, mergedRecord_id, hB]
    exact (eq_of_beq h).symm
  · simp [h]

theorem findById_handleMerge (l : List Transaction) (buyId sellId : String)
    (B S : Transaction) (hb : findById l buyId = some B)
    (hs : findById l sellId = some S) (hne : buyId ≠ sellId) :
    findById (handleMerge l buyId sellId) buyId = some (mergedRecord B S) := by
  have hB := (findById_some_mem l buyId B hb).2
  rw [handleMerge_found l buyId sellId B S hb hs,
    findById_map_filter l _ (merge_map_preserves_id buyId B S hB) buyId sellId hne, hb]
  simp [hB]

theorem mem_filter_ne_id (x : List Transaction) (s : String) (t : Transaction)
    (h : t ∈ x.filter (fun t => !(t.id == s))) : t.id ≠ s := by
  have := (List.mem_filter.mp h).2
  simpa using this

theorem length_handleMerge (l : List Transaction) (buyId sellId : String)
    (B S : Transaction) (hb : findById l buyId = some B)
    (hs : findById l sellId = some S) (hnd : (idsOf l).Nodup) :
    (handleMerge l buyId sellId).length = l.length - 1 := by
  have hB := (findById_some_mem l buyId B hb).2
  have hSmem := findById_some_mem l sellId S hs
  have hf := merge_map_preserves_id buyId B S hB
  rw [handleMerge_found l buyId sellId B S hb hs]
  have hnd' : (idsOf (l.map (fun t => if t.id == buyId then mergedRecord B S else t))).Nodup := by
    rw [idsOf_map_eq l _ hf]
    exact hnd
  have hmem' : sellId ∈ idsOf (l.map (fun t => if t.id == buyId then mergedRecord B S else t)) := by
    rw [idsOf_map_eq l _ hf]
    exact hSmem.2 ▸ List.mem_map.mpr ⟨S, hSmem.1, rfl⟩
  rw [length_filter_ne_of_nodup _ sellId hnd' hmem', List.length_map]

theorem executeSplit_found (prev : List Transaction) (id newSellId : String)
    (item : Transaction) (hfind : findById prev id = some item) :
    executeSplit prev id newSellId =
      restoredSellOf item newSellId ::
        prev.map (fun t => if t.id == id then restoredBuyOf item else t) := by
  simp [executeSplit, hfind]

theorem handleDeleteFlow_split (prev : List Transaction) (id newSellId : String)
    (item : Transaction) (hfind : findById prev id = some item)
    (hcl : 0 < item.buyPrice ∧ 0 < item.sellPrice ∧ item.isSold) :
    handleDeleteFlow prev id newSellId = executeSplit prev id newSellId := by
  simp [handleDeleteFlow, hfind, hcl]

theorem restoredBuyOf_id (item : Transaction) : (restoredBuyOf item).id = item.id := rfl

theorem split_map_preserves_id (id : String) (item : Transaction)
    (hid : item.id = id) (t : Transaction) :
    ((fun t => if t.id == id then restoredBuyOf item else t) t).id = t.id := by
  by_cases h : (t.id == id) = true
  · simp only [h, if_true, restoredBuyOf_id, hid]
    exact (eq_of_beq h).symm
  · simp [h]

/-! ### Claim theorems -/

/-- C2: the platform fee used for profit computation is exactly
`(sellPrice + shippingCost) * 0.006` (with absent shipping read as 0),
net profit is exactly `sellPrice - buyPrice - shippingCost - fee`, and a
record that does not satisfy `buyPrice > 0 ∧ sellPrice > 0` contributes
nothing to the profit aggregates of `stats`. -/
theorem C2_profit_formula :
    (∀ sellPrice shipping : ℚ,
      platformFee sellPrice shipping = (sellPrice + shipping) * (6 / 1000))
    ∧ (∀ t : Transaction, netProfit t =
        t.sellPrice - t.buyPrice - jsNumOr0 t.shippingCost
          - (t.sellPrice + jsNumOr0 t.shippingCost) * (6 / 1000))
    ∧ (∀ (t : Transaction) (l : List Transaction),
        ¬(0 < t.buyPrice ∧ 0 < t.sellPrice) →
        (stats (t :: l)).closedLoopProfit = (stats l).closedLoopProfit
        ∧ (stats (t :: l)).closedLoopRoi = (stats l).closedLoopRoi
        ∧ (stats (t :: l)).closedLoopCount = (stats l).closedLoopCount) := by
  refine ⟨?_, ?_, ?_⟩
  · intro sp sc
    rw [platformFee]
    norm_num
  · intro t
    rw [netProfit, platformFee, shippingOr0]
    norm_num
  · intro t l h
    have hscl : isSoldClosedLoop t = false := by
      rcases not_and_or.mp h with h' | h' <;> simp [isSoldClosedLoop, h']
    rw [stats_eq, stats_eq]
    simp [soldClosedLoopProfit, soldClosedLoopCost, countSoldClosedLoop,
      List.filter_cons, hscl]

/-- Witness for C2 at a concrete inventory record. -/
theorem C2_witness :
    ¬(0 < (⟨"w2", "Item", "Electronics", 50, 0, false, "2024-01-01",
        none, none, none, none, none⟩ : Transaction).buyPrice
      ∧ 0 < (⟨"w2", "Item", "Electronics", 50, 0, false, "2024-01-01",
        none, none, none, none, none⟩ : Transaction).sellPrice)
    ∧ (stats [⟨"w2", "Item", "Electronics", 50, 0, false, "2024-01-01",
        none, none, none, none, none⟩]).closedLoopProfit =
      (stats []).closedLoopProfit := by
  refine ⟨by decide, ?_⟩
  exact (C2_profit_formula.2.2 _ [] (by decide)).1

/-- C3 counterexample: a record with `buyPrice = 100`, `sellPrice = 150`
but `isSold = false` is `ClosedLoop` per the classification table, yet
`stats` counts no profit for it, so closed-loop profit is not the sum of
net profit over table-`ClosedLoop` records. -/
theorem C3_counterexample :
    classify ⟨"c3", "Laptop", "Electronics", 100, 150, false, "2024-01-01",
        none, none, none, none, none⟩ = LifecycleState.closedLoop
    ∧ tableClosedLoopProfit [⟨"c3", "Laptop", "Electronics", 100, 150, false,
        "2024-01-01", none, none, none, none, none⟩] = 491 / 10
    ∧ (stats [⟨"c3", "Laptop", "Electronics", 100, 150, false, "2024-01-01",
        none, none, none, none, none⟩]).closedLoopProfit = 0
    ∧ (stats [⟨"c3", "Laptop", "Electronics", 100, 150, false, "2024-01-01",
        none, none, none, none, none⟩]).closedLoopProfit ≠
      tableClosedLoopProfit [⟨"c3", "Laptop", "Electronics", 100, 150, false,
        "2024-01-01", none, none, none, none, none⟩] := by
  have htab : List.filter (fun t => classify t == LifecycleState.closedLoop)
      [(⟨"c3", "Laptop", "Electronics", 100, 150, false, "2024-01-01",
        none, none, none, none, none⟩ : Transaction)] =
      [⟨"c3", "Laptop", "Electronics", 100, 150, false, "2024-01-01",
        none, none, none, none, none⟩] := by decide
  have hscl : List.filter isSoldClosedLoop
      [(⟨"c3", "Laptop", "Electronics", 100, 150, false, "2024-01-01",
        none, none, none, none, none⟩ : Transaction)] = [] := by decide
  have h1 : tableClosedLoopProfit [(⟨"c3", "Laptop", "Electronics", 100, 150,
      false, "2024-01-01", none, none, none, none, none⟩ : Transaction)] = 491 / 10 := by
    rw [tableClosedLoopProfit, htab]
    norm_num [netProfit, platformFee, shippingOr0, jsNumOr0]
  have h2 : (stats [(⟨"c3", "Laptop", "Electronics", 100, 150, false, "2024-01-01",
      none, none, none, none, none⟩ : Transaction)]).closedLoopProfit = 0 := by
    rw [stats_eq]
    simp [soldClosedLoopProfit, hscl]
  refine ⟨by decide, h1, h2, ?_⟩
  rw [h1, h2]
  norm_num

/-- C3 amended: the aggregates of `stats` are the stated sums, with
closed-loop profit summed over records that are ClosedLoop *and marked
sold*; ROI is profit over cost times 100 (0 when the cost is 0); and the
two-record scenario yields exactly
`(150, 150, 49.1, 49.1, itemCount 2, sold 1, closed-loop 1)`. -/
theorem C3_portfolio_stats :
    (∀ l : List Transaction, stats l =
      { totalInvested := sumBuyPrices l
        totalRevenue := sumSoldRevenue l
        closedLoopProfit := soldClosedLoopProfit l
        closedLoopRoi := if 0 < soldClosedLoopCost l then
            soldClosedLoopProfit l / soldClosedLoopCost l * 100 else 0
        itemCount := l.length
        soldCount := countSoldRecords l
        closedLoopCount := countSoldClosedLoop l })
    ∧ stats [⟨"s1", "A", "Electronics", 100, 150, true, "2024-01-01",
        none, none, some 0, none, none⟩,
      ⟨"s2", "B", "Electronics", 50, 0, false, "2024-01-02",
        none, none, none, none, none⟩] =
      ⟨150, 150, 491 / 10, 491 / 10, 2, 1, 1⟩ := by
  refine ⟨stats_eq, ?_⟩
  rw [stats_eq]
  have hsold : List.filter (fun t => t.isSold)
      [(⟨"s1", "A", "Electronics", 100, 150, true, "2024-01-01",
        none, none, some 0, none, none⟩ : Transaction),
      ⟨"s2", "B", "Electronics", 50, 0, false, "2024-01-02",
        none, none, none, none, none⟩] =
      [⟨"s1", "A", "Electronics", 100, 150, true, "2024-01-01",
        none, none, some 0, none, none⟩] := by decide
  have hscl : List.filter isSoldClosedLoop
      [(⟨"s1", "A", "Electronics", 100, 150, true, "2024-01-01",
        none, none, some 0, none, none⟩ : Transaction),
      ⟨"s2", "B", "Electronics", 50, 0, false, "2024-01-02",
        none, none, none, none, none⟩] =
      [⟨"s1", "A", "Electronics", 100, 150, true, "2024-01-01",
        none, none, some 0, none, none⟩] := by decide
  rw [TradeStats.mk.injEq, sumBuyPrices, sumSoldRevenue, soldClosedLoopProfit,
    soldClosedLoopCost, countSoldRecords, countSoldClosedLoop, hsold, hscl]
  norm_num [netProfit, platformFee, shippingOr0, jsNumOr0]

/-- C5: merge-mode import never overwrites an existing record — a lookup
by an existing id still finds the original record after the import, and in
the concrete `{id:"x", buyPrice:10}` vs imported `{id:"x", buyPrice:999}`
scenario the collection is unchanged. -/
theorem C5_merge_import_no_overwrite :
    (∀ (current repaired : List Transaction) (r : Transaction),
        (idsOf current).Nodup → r ∈ current →
        findById (applyImportMode current repaired ImportMode.merge) r.id = some r)
    ∧ applyImportMode
        [⟨"x", "A", "Electronics", 10, 0, false, "2024-01-01",
          none, none, none, none, none⟩]
        [⟨"x", "A", "Electronics", 999, 0, false, "2024-01-01",
          none, none, none, none, none⟩] ImportMode.merge =
      [⟨"x", "A", "Electronics", 10, 0, false, "2024-01-01",
        none, none, none, none, none⟩] := by
  constructor
  · intro current repaired r hnd hr
    have h := findById_eq_of_nodup current r hnd hr
    rw [findById] at h
    simp only [applyImportMode, findById, List.find?_append, h, Option.or]
  · decide

/-- Witness for C5: the general no-overwrite statement applied to the
concrete scenario. -/
theorem C5_witness :
    (idsOf [⟨"x", "A", "Electronics", 10, 0, false, "2024-01-01",
        none, none, none, none, none⟩]).Nodup
    ∧ findById (applyImportMode
        [⟨"x", "A", "Electronics", 10, 0, false, "2024-01-01",
          none, none, none, none, none⟩]
        [⟨"x", "A", "Electronics", 999, 0, false, "2024-01-01",
          none, none, none, none, none⟩] ImportMode.merge) "x" =
      some ⟨"x", "A", "Electronics", 10, 0, false, "2024-01-01",
        none, none, none, none, none⟩ := by
  refine ⟨by decide, ?_⟩
  exact C5_merge_import_no_overwrite.1 _ _
    ⟨"x", "A", "Electronics", 10, 0, false, "2024-01-01",
      none, none, none, none, none⟩ (by decide) (by simp)

/-- C7 counterexample: the repair step does not clamp negative numbers —
an imported `buyPrice` of −5 is stored as −5, so a record with negative
price does end up in the collection after an import. -/
theorem C7_counterexample :
    (repairItem "fresh" "2024-01-01"
      (Json.obj [("buyPrice", Json.num (-5)), ("sellPrice", Json.num 20),
        ("isSold", Json.bool true)])).buyPrice = -5
    ∧ (repairItem "fresh" "2024-01-01"
      (Json.obj [("buyPrice", Json.num (-5)), ("sellPrice", Json.num 20),
        ("isSold", Json.bool true)])).buyPrice < 0
    ∧ (applyImportMode [] (repairAll (fun _ => "fresh") "2024-01-01"
        [Json.obj [("buyPrice", Json.num (-5)), ("sellPrice", Json.num 20),
          ("isSold", Json.bool true)]]) ImportMode.merge).map
        (fun t => t.buyPrice) = [-5] := by
  refine ⟨by decide, by decide, by decide⟩

/-- C7 amended: the repair step coerces each price field with JavaScript
`Number(x) || 0` semantics — a non-numeric field (NaN) becomes 0, but any
numeric value, negative values included, is stored unchanged. -/
theorem C7_price_coercion :
    (∀ (freshId today : String) (item : Json),
        jsToNumber (jsGet item "buyPrice") = none →
        (repairItem freshId today item).buyPrice = 0)
    ∧ (∀ (freshId today : String) (item : Json) (q : ℚ),
        jsToNumber (jsGet item "buyPrice") = some q →
        (repairItem freshId today item).buyPrice = q)
    ∧ (∀ (freshId today : String) (item : Json),
        jsToNumber (jsGet item "sellPrice") = none →
        (repairItem freshId today item).sellPrice = 0)
    ∧ (∀ (freshId today : String) (item : Json) (q : ℚ),
        jsToNumber (jsGet item "sellPrice") = some q →
        (repairItem freshId today item).sellPrice = q) := by
  refine ⟨?_, ?_, ?_, ?_⟩
  · intro freshId today item h
    simp [repairItem, jsNumOr0, h]
  · intro freshId today item q h
    simp [repairItem, jsNumOr0, h]
  · intro freshId today item h
    simp [repairItem, jsNumOr0, h]
  · intro freshId today item q h
    simp [repairItem, jsNumOr0, h]

/-- Witness for C7: a non-numeric `buyPrice` becomes 0, a numeric −5
passes through. -/
theorem C7_witness :
    jsToNumber (jsGet (Json.obj [("buyPrice", Json.str "abc")]) "buyPrice") = none
    ∧ (repairItem "f" "2024-01-01"
        (Json.obj [("buyPrice", Json.str "abc")])).buyPrice = 0
    ∧ jsToNumber (jsGet (Json.obj [("buyPrice", Json.num (-5))]) "buyPrice") = some (-5)
    ∧ (repairItem "f" "2024-01-01"
        (Json.obj [("buyPrice", Json.num (-5))])).buyPrice = -5 :=
  ⟨by decide,
   C7_price_coercion.1 "f" "2024-01-01" _ (by decide),
   by decide,
   C7_price_coercion.2.1 "f" "2024-01-01" _ (-5) (by decide)⟩

/-- C8: the anchor `iPhone 13 Pro` (tag `主机设备`) scores 180 against
`iPhone 13 Pro Max` (same tag) and −50 against `Nike Shoes` (tag `服饰`),
so the phone candidate ranks strictly above the shoe candidate; equal
present tags contribute +80 and unequal present tags −50. -/
theorem C8_matching_scenario :
    calculateScore
      ⟨"a", "iPhone 13 Pro", "Electronics", 100, 0, false, "2024-01-01",
        none, none, none, none, some "主机设备"⟩
      ⟨"p", "iPhone 13 Pro Max", "Electronics", 0, 120, true, "2024-01-02",
        none, none, none, none, some "主机设备"⟩ = 180
    ∧ calculateScore
      ⟨"a", "iPhone 13 Pro", "Electronics", 100, 0, false, "2024-01-01",
        none, none, none, none, some "主机设备"⟩
      ⟨"q", "Nike Shoes", "Electronics", 0, 50, true, "2024-01-03",
        none, none, none, none, some "服饰"⟩ = -50
    ∧ (180 : ℤ) > -50
    ∧ rankCandidates
      ⟨"a", "iPhone 13 Pro", "Electronics", 100, 0, false, "2024-01-01",
        none, none, none, none, some "主机设备"⟩
      [⟨"q", "Nike Shoes", "Electronics", 0, 50, true, "2024-01-03",
        none, none, none, none, some "服饰"⟩,
       ⟨"p", "iPhone 13 Pro Max", "Electronics", 0, 120, true, "2024-01-02",
        none, none, none, none, some "主机设备"⟩] =
      [⟨"p", "iPhone 13 Pro Max", "Electronics", 0, 120, true, "2024-01-02",
        none, none, none, none, some "主机设备"⟩,
       ⟨"q", "Nike Shoes", "Electronics", 0, 50, true, "2024-01-03",
        none, none, none, none, some "服饰"⟩]
    ∧ (∀ b s : Transaction, jsTruthyStr b.smartType = true →
        jsTruthyStr s.smartType = true →
        (b.smartType = s.smartType → smartTypeScore b s = 80)
        ∧ (b.smartType ≠ s.smartType → smartTypeScore b s = -50)) := by
  refine ⟨by decide, by decide, by decide, by decide, ?_⟩
  intro b s hb hs
  constructor
  · intro he
    simp [smartTypeScore, hb, hs, he]
  · intro he
    have hne : (b.smartType == s.smartType) = false := beq_eq_false_iff_ne.mpr he
    simp [smartTypeScore, hb, hs, hne]

/-- Witness for C8: the tag-agreement clause applied to two concrete
records with equal tags. -/
theorem C8_witness :
    jsTruthyStr (some "主机设备") = true
    ∧ smartTypeScore
      ⟨"a", "iPhone 13 Pro", "Electronics", 100, 0, false, "2024-01-01",
        none, none, none, none, some "主机设备"⟩
      ⟨"p", "iPhone 13 Pro Max", "Electronics", 0, 120, true, "2024-01-02",
        none, none, none, none, some "主机设备"⟩ = 80 :=
  ⟨by decide,
   (C8_matching_scenario.2.2.2.2 _ _ (by decide) (by decide)).1 rfl⟩

/-- C10: calling merge with the same id on both sides removes the record
entirely — the record is rewritten as the buy side, then filtered out as
the sell side; no distinctness or lifecycle check intervenes.  The count
drops by one and no record with that id remains. -/
theorem C10_merge_self_delete (l : List Transaction) (i : String) (r : Transaction)
    (hnd : (idsOf l).Nodup) (hr : r ∈ l) (hid : r.id = i) :
    handleMerge l i i = l.filter (fun t => !(t.id == i))
    ∧ (handleMerge l i i).length = l.length - 1
    ∧ ∀ t ∈ handleMerge l i i, t.id ≠ i := by
  have hfind : findById l i = some r := hid ▸ findById_eq_of_nodup l r hnd hr
  have heq : handleMerge l i i = l.filter (fun t => !(t.id == i)) := by
    rw [handleMerge_found l i i r r hfind hfind]
    exact map_replace_filter l i (mergedRecord r r) ((mergedRecord_id r r).trans hid)
  have hmem : i ∈ idsOf l := List.mem_map.mpr ⟨r, hr, hid⟩
  refine ⟨heq, ?_, ?_⟩
  · rw [heq]
    exact length_filter_ne_of_nodup l i hnd hmem
  · intro t ht
    rw [heq] at ht
    exact mem_filter_ne_id l i t ht

/-- Witness for C10: merging a singleton collection with itself empties it. -/
theorem C10_witness :
    (idsOf [(⟨"x", "A", "Electronics", 10, 0, false, "2024-01-01",
        none, none, none, none, none⟩ : Transaction)]).Nodup
    ∧ handleMerge [⟨"x", "A", "Electronics", 10, 0, false, "2024-01-01",
        none, none, none, none, none⟩] "x" "x" =
      List.filter (fun t => !(t.id == "x"))
        [⟨"x", "A", "Electronics", 10, 0, false, "2024-01-01",
          none, none, none, none, none⟩]
    ∧ (handleMerge [⟨"x", "A", "Electronics", 10, 0, false, "2024-01-01",
        none, none, none, none, none⟩] "x" "x").length = 0 := by
  have h := C10_merge_self_delete
    [⟨"x", "A", "Electronics", 10, 0, false, "2024-01-01",
      none, none, none, none, none⟩] "x"
    ⟨"x", "A", "Electronics", 10, 0, false, "2024-01-01",
      none, none, none, none, none⟩ (by decide) (by simp) rfl
  exact ⟨by decide, h.1, by simpa using h.2.1⟩

/-- C4 counterexample: `handleMerge` copies the sale record's `date` field
into the merged record's `sellDate`, not the sale record's `sellDate` —
here the sale has `date = 2024-02-01` and `sellDate = 2024-02-02`, and the
merged record ends with `sellDate = 2024-02-01`. -/
theorem C4_counterexample :
    (findById (handleMerge
      [⟨"b", "KeyB", "Electronics", 100, 0, false, "2024-01-01",
        none, none, none, none, none⟩,
       ⟨"s", "KeyS", "Electronics", 0, 150, true, "2024-02-01",
        some "2024-02-02", none, none, none, none⟩] "b" "s") "b").map
      (fun t => t.sellDate) = some (some "2024-02-01")
    ∧ (⟨"s", "KeyS", "Electronics", 0, 150, true, "2024-02-01",
        some "2024-02-02", none, none, none, none⟩ : Transaction).sellDate =
      some "2024-02-02"
    ∧ (findById (handleMerge
      [⟨"b", "KeyB", "Electronics", 100, 0, false, "2024-01-01",
        none, none, none, none, none⟩,
       ⟨"s", "KeyS", "Electronics", 0, 150, true, "2024-02-01",
        some "2024-02-02", none, none, none, none⟩] "b" "s") "b").map
      (fun t => t.sellDate) ≠
      some (⟨"s", "KeyS", "Electronics", 0, 150, true, "2024-02-01",
        some "2024-02-02", none, none, none, none⟩ : Transaction).sellDate := by
  refine ⟨by decide, by decide, by decide⟩

/-- C4 amended: merging a present buy record `B` with a present sale
record `S` (distinct ids) leaves, under `B`'s id, a record with `S`'s
`sellPrice`, `isSold = true`, `sellDate` equal to `S`'s *date* field,
the audit suffix appended to the notes, the inherited (or defaulted)
shipping fields, and `B`'s name and buy price; the sale record's id is no
longer present. -/
theorem C4_merge_effect (l : List Transaction) (B S : Transaction)
    (hnd : (idsOf l).Nodup) (hB : B ∈ l) (hS : S ∈ l) (hne : B.id ≠ S.id) :
    findById (handleMerge l B.id S.id) B.id = some (mergedRecord B S)
    ∧ (mergedRecord B S).sellPrice = S.sellPrice
    ∧ (mergedRecord B S).isSold = true
    ∧ (mergedRecord B S).sellDate = some S.date
    ∧ (mergedRecord B S).notes =
      some ((B.notes.getD "") ++ " | Sold Match: " ++ S.name)
    ∧ (mergedRecord B S).shippingCost = some (match S.shippingCost with
        | some c => c
        | none => 5.6)
    ∧ (mergedRecord B S).shippingMethod = some (jsOrStr S.shippingMethod "STO")
    ∧ (mergedRecord B S).name = B.name
    ∧ (mergedRecord B S).buyPrice = B.buyPrice
    ∧ ∀ t ∈ handleMerge l B.id S.id, t.id ≠ S.id := by
  have hb : findById l B.id = some B := findById_eq_of_nodup l B hnd hB
  have hs : findById l S.id = some S := findById_eq_of_nodup l S hnd hS
  refine ⟨findById_handleMerge l B.id S.id B S hb hs hne,
    rfl, rfl, rfl, rfl, rfl, rfl, rfl, rfl, ?_⟩
  intro t ht
  rw [handleMerge_found l B.id S.id B S hb hs] at ht
  exact mem_filter_ne_id _ S.id t ht

/-- Witness for C4 at a concrete two-record collection. -/
theorem C4_witness :
    (idsOf [(⟨"b", "KeyB", "Electronics", 100, 0, false, "2024-01-01",
        none, none, none, none, none⟩ : Transaction),
      ⟨"s", "KeyS", "Electronics", 0, 150, true, "2024-02-01",
        some "2024-02-02", none, none, none, none⟩]).Nodup
    ∧ findById (handleMerge
        [⟨"b", "KeyB", "Electronics", 100, 0, false, "2024-01-01",
          none, none, none, none, none⟩,
         ⟨"s", "KeyS", "Electronics", 0, 150, true, "2024-02-01",
          some "2024-02-02", none, none, none, none⟩] "b" "s") "b" =
      some (mergedRecord
        ⟨"b", "KeyB", "Electronics", 100, 0, false, "2024-01-01",
          none, none, none, none, none⟩
        ⟨"s", "KeyS", "Electronics", 0, 150, true, "2024-02-01",
          some "2024-02-02", none, none, none, none⟩) := by
  refine ⟨by decide, ?_⟩
  exact (C4_merge_effect
    [⟨"b", "KeyB", "Electronics", 100, 0, false, "2024-01-01",
      none, none, none, none, none⟩,
     ⟨"s", "KeyS", "Electronics", 0, 150, true, "2024-02-01",
      some "2024-02-02", none, none, none, none⟩]
    ⟨"b", "KeyB", "Electronics", 100, 0, false, "2024-01-01",
      none, none, none, none, none⟩
    ⟨"s", "KeyS", "Electronics", 0, 150, true, "2024-02-01",
      some "2024-02-02", none, none, none, none⟩
    (by decide) (by simp) (by simp) (by decide)).1

theorem applyQuickUpdate_id (today : String) (f : QField) (v : QValue)
    (t : Transaction) : (applyQuickUpdate today f v t).id = t.id := by
  cases f <;> cases v <;> simp [applyQuickUpdate] <;> split_ifs <;> rfl

/-- C9 counterexample: an imported array containing two elements with the
same id `"x"` passes merge-mode import in full (deduplication is only
against the existing collection), so starting from the empty collection —
which has pairwise-distinct ids — the result has a duplicated id. -/
theorem C9_counterexample :
    (idsOf ([] : List Transaction)).Nodup
    ∧ (repairAll (fun _ => "fresh") "2024-01-01"
        [Json.obj [("id", Json.str "x")], Json.obj [("id", Json.str "x")]]).map
        (fun t => t.id) = ["x", "x"]
    ∧ ¬ (idsOf (applyImportMode []
        (repairAll (fun _ => "fresh") "2024-01-01"
          [Json.obj [("id", Json.str "x")], Json.obj [("id", Json.str "x")]])
        ImportMode.merge)).Nodup := by
  refine ⟨by decide, by decide, by decide⟩

/-- C9 amended: id uniqueness is preserved by add-with-a-fresh-id, edit,
merge, delete/split-with-a-fresh-id, quick-update, and by import in either
mode *provided* the repaired imported records themselves have
pairwise-distinct ids; an imported array with an internal duplicate breaks
the invariant (see the counterexample). -/
theorem C9_id_uniqueness :
    (∀ (l : List Transaction) (t : Transaction), (idsOf l).Nodup →
        t.id ∉ idsOf l → (idsOf (handleSaveNew l t)).Nodup)
    ∧ (∀ (l : List Transaction) (t : Transaction), (idsOf l).Nodup →
        (idsOf (handleSaveEdit l t)).Nodup)
    ∧ (∀ (l : List Transaction) (b s : String), (idsOf l).Nodup →
        (idsOf (handleMerge l b s)).Nodup)
    ∧ (∀ (l : List Transaction) (i n : String), (idsOf l).Nodup →
        n ∉ idsOf l → (idsOf (handleDeleteFlow l i n)).Nodup)
    ∧ (∀ (l : List Transaction) (i today : String) (f : QField) (v : QValue),
        (idsOf l).Nodup → (idsOf (handleQuickUpdate l i today f v)).Nodup)
    ∧ (∀ (cur rep : List Transaction) (mode : ImportMode), (idsOf cur).Nodup →
        (idsOf rep).Nodup → (idsOf (applyImportMode cur rep mode)).Nodup) := by
  refine ⟨?_, ?_, ?_, ?_, ?_, ?_⟩
  · intro l t hnd hni
    rw [handleSaveNew, idsOf, List.map_cons, List.nodup_cons]
    exact ⟨hni, hnd⟩
  · intro l t hnd
    have hf : ∀ x, ((fun x => if x.id == t.id then t else x) x).id = x.id := by
      intro x
      by_cases h : (x.id == t.id) = true
      · simp [h, (eq_of_beq h).symm]
      · simp [h]
    rw [handleSaveEdit, idsOf_map_eq l _ hf]
    exact hnd
  · intro l b s hnd
    cases hfb : findById l b with
    | none => simpa [handleMerge, hfb] using hnd
    | some B =>
      cases hfs : findById l s with
      | none => simpa [handleMerge, hfb, hfs] using hnd
      | some S =>
        have hBid := (findById_some_mem l b B hfb).2
        rw [handleMerge_found l b s B S hfb hfs, idsOf_filter_ne,
          idsOf_map_eq l _ (merge_map_preserves_id b B S hBid)]
        exact hnd.filter _
  · intro l i n hnd hni
    cases hfi : findById l i with
    | none => simpa [handleDeleteFlow, hfi] using hnd
    | some item =>
      by_cases hcl : 0 < item.buyPrice ∧ 0 < item.sellPrice ∧ item.isSold
      · rw [handleDeleteFlow_split l i n item hfi hcl,
          executeSplit_found l i n item hfi, idsOf, List.map_cons, List.nodup_cons,
          ← idsOf, idsOf_map_eq l _
            (split_map_preserves_id i item (findById_some_mem l i item hfi).2)]
        exact ⟨by simpa [restoredSellOf] using hni, hnd⟩
      · have : handleDeleteFlow l i n = permanentDelete l i := by
          simp [handleDeleteFlow, hfi, hcl]
        rw [this, permanentDelete, idsOf_filter_ne]
        exact hnd.filter _
  · intro l i today f v hnd
    have hf : ∀ x, ((fun x => if x.id == i then applyQuickUpdate today f v x else x) x).id
        = x.id := by
      intro x
      by_cases h : (x.id == i) = true
      · simp [h, applyQuickUpdate_id]
      · simp [h]
    rw [handleQuickUpdate, idsOf_map_eq l _ hf]
    exact hnd
  · intro cur rep mode hcur hrep
    cases mode with
    | replace => exact hrep
    | merge =>
      rw [applyImportMode, idsOf, List.map_append]
      refine List.Nodup.append hcur ?_ ?_
      · exact hrep.sublist ((List.filter_sublist rep).map _)
      · intro x hxcur hxfil
        rcases List.mem_map.mp hxfil with ⟨t, htfil, hteq⟩
        have hmem := List.mem_filter.mp htfil
        have hany : cur.any (fun e => e.id == t.id) = false := by
          have := hmem.2
          simp only [Bool.not_eq_true'] at this
          exact this
        rcases List.mem_map.mp hxcur with ⟨e, hecur, heeq⟩
        have hfalse : (e.id == t.id) = false := by
          have := List.any_eq_false.mp hany e hecur
          simpa using this
        have htrue : (e.id == t.id) = true := beq_iff_eq.mpr (heeq.trans hteq.symm)
        rw [htrue] at hfalse
        cases hfalse

/-- Witness for C9: the merge-preservation clause applied to a concrete
singleton collection. -/
theorem C9_witness :
    (idsOf [(⟨"x", "A", "Electronics", 10, 0, false, "2024-01-01",
        none, none, none, none, none⟩ : Transaction)]).Nodup
    ∧ (idsOf (handleMerge
        [⟨"x", "A", "Electronics", 10, 0, false, "2024-01-01",
          none, none, none, none, none⟩] "x" "x")).Nodup := by
  refine ⟨by decide, ?_⟩
  exact C9_id_uniqueness.2.2.1
    [⟨"x", "A", "Electronics", 10, 0, false, "2024-01-01",
      none, none, none, none, none⟩] "x" "x" (by decide)

/-- C6: the import first parses the first-`[`-to-last-`]` span, falls back
to parsing the whole input (also when the span parse yields a falsy
value), reports a parse error when both fail and a format error when the
parsed value is not an array — and on every reported error the collection
is returned unchanged. -/
theorem C6_import_parse_pipeline (parse : String → Option Json)
    (freshIds : ℕ → String) (today : String) (current : List Transaction)
    (s : String) (mode : ImportMode) :
    (∀ msg, (parseAndImport parse freshIds today current s mode).2 = some msg →
        (parseAndImport parse freshIds today current s mode).1 = current)
    ∧ (∀ sub v, trimStr s ≠ "" → extractSpan s = some sub → parse sub = some v →
        jsTruthy v = true →
        parseAndImport parse freshIds today current s mode =
          importResultOf freshIds today current mode v)
    ∧ (∀ v, trimStr s ≠ "" →
        (extractSpan s = none ∨ ∃ sub, extractSpan s = some sub ∧
          (parse sub = none ∨ ∃ w, parse sub = some w ∧ jsTruthy w = false)) →
        parse s = some v →
        parseAndImport parse freshIds today current s mode =
          importResultOf freshIds today current mode v)
    ∧ (trimStr s ≠ "" →
        (extractSpan s = none ∨ ∃ sub, extractSpan s = some sub ∧
          (parse sub = none ∨ ∃ w, parse sub = some w ∧ jsTruthy w = false)) →
        parse s = none →
        parseAndImport parse freshIds today current s mode =
          (current, some "无法解析 JSON 数据。请确保粘贴了完整的数组 [...] 内容。")) := by
  refine ⟨?_, ?_, ?_, ?_⟩
  · intro msg h
    by_cases he : trimStr s = ""
    · simp [parseAndImport, he]
    · cases hv : parsedValue parse s with
      | none => simp [parseAndImport, he, hv]
      | some v =>
        cases v with
        | arr items =>
          rw [parseAndImport, if_neg he, hv] at h
          cases h
        | null => simp [parseAndImport, he, hv]
        | bool b => simp [parseAndImport, he, hv]
        | num q => simp [parseAndImport, he, hv]
        | str t => simp [parseAndImport, he, hv]
        | obj fields => simp [parseAndImport, he, hv]
  · intro sub v hne hspan hp htr
    have hpv : parsedValue parse s = some v := by
      simp [parsedValue, spanParsed, hspan, hp, htr]
    cases v <;> simp [parseAndImport, hne, hpv, importResultOf]
  · intro v hne hfall hp
    have hsp : spanParsed parse s = none := by
      rcases hfall with h | ⟨sub, hsub, h⟩
      · simp [spanParsed, h]
      · rcases h with h | ⟨w, hw, hwf⟩
        · simp [spanParsed, hsub, h]
        · simp [spanParsed, hsub, hw, hwf]
    have hpv : parsedValue parse s = some v := by
      simp [parsedValue, hsp, hp]
    cases v <;> simp [parseAndImport, hne, hpv, importResultOf]
  · intro hne hfall hp
    have hsp : spanParsed parse s = none := by
      rcases hfall with h | ⟨sub, hsub, h⟩
      · simp [spanParsed, h]
      · rcases h with h | ⟨w, hw, hwf⟩
        · simp [spanParsed, hsub, h]
        · simp [spanParsed, hsub, hw, hwf]
    have hpv : parsedValue parse s = none := by
      simp [parsedValue, hsp, hp]
    simp [parseAndImport, hne, hpv]

/-- Witness for C6: a concrete parse function and the input `x[]y` — the
span `[]` parses to an (empty) array, so the import succeeds ignoring the
surrounding prose; the whole-input parse is never consulted. -/
theorem C6_witness :
    trimStr "x[]y" ≠ ""
    ∧ extractSpan "x[]y" = some "[]"
    ∧ jsTruthy (Json.arr []) = true
    ∧ parseAndImport (fun t => if t = "[]" then some (Json.arr []) else none)
        (fun _ => "fresh") "2024-01-01" [] "x[]y" ImportMode.merge =
      importResultOf (fun _ => "fresh") "2024-01-01" [] ImportMode.merge
        (Json.arr []) := by
  refine ⟨by decide, by decide, rfl, ?_⟩
  exact (C6_import_parse_pipeline
      (fun t => if t = "[]" then some (Json.arr []) else none)
      (fun _ => "fresh") "2024-01-01" [] "x[]y" ImportMode.merge).2.1
    "[]" (Json.arr []) (by decide) (by decide) (by simp) rfl

/-- C1 counterexample: for the orphan sale named `"KeyS "` (trailing
space) the round trip loses the name — split recovers `parts[1].trim()`,
so no record in the resulting collection carries `sellPrice = 150`
together with the original name `"KeyS "`. -/
theorem C1_counterexample :
    classify ⟨"b", "KeyB", "Electronics", 100, 0, false, "2024-01-01",
      none, none, none, none, none⟩ = LifecycleState.inventory
    ∧ classify ⟨"s", "KeyS ", "Electronics", 0, 150, true, "2024-02-01",
      some "2024-02-02", none, none, none, none⟩ = LifecycleState.orphanSale
    ∧ (handleDeleteFlow (handleMerge
        [⟨"b", "KeyB", "Electronics", 100, 0, false, "2024-01-01",
          none, none, none, none, none⟩,
         ⟨"s", "KeyS ", "Electronics", 0, 150, true, "2024-02-01",
          some "2024-02-02", none, none, none, none⟩] "b" "s") "b" "n1").length = 2
    ∧ ∀ t ∈ handleDeleteFlow (handleMerge
        [⟨"b", "KeyB", "Electronics", 100, 0, false, "2024-01-01",
          none, none, none, none, none⟩,
         ⟨"s", "KeyS ", "Electronics", 0, 150, true, "2024-02-01",
          some "2024-02-02", none, none, none, none⟩] "b" "s") "b" "n1",
        ¬(t.sellPrice = 150 ∧ t.name = "KeyS ") := by
  refine ⟨by decide, by decide, by decide, by decide⟩

/-- C1 amended: the merge-then-split round trip restores the buy name and
buy price under the original id and yields a new record with the sale's
price, and the collection size returns to its pre-merge value — provided
the sale name survives `parts[1].trim()` unchanged and neither the buy
record's notes nor the sale name contains the `'|'` of the audit
separator. -/
theorem C1_merge_split_round_trip (l : List Transaction) (B S : Transaction)
    (newSellId : String)
    (hnd : (idsOf l).Nodup) (hB : B ∈ l) (hS : S ∈ l) (hne : B.id ≠ S.id)
    (hBinv : 0 < B.buyPrice ∧ B.sellPrice = 0)
    (hSorph : S.buyPrice = 0 ∧ 0 < S.sellPrice)
    (hnames : B.name ≠ S.name)
    (htrim : trimStr S.name = S.name)
    (hnotes : ∀ c ∈ (B.notes.getD "").data, c ≠ '|')
    (hsname : ∀ c ∈ S.name.data, c ≠ '|')
    (hfresh : newSellId ≠ B.id) :
    (handleDeleteFlow (handleMerge l B.id S.id) B.id newSellId).length = l.length
    ∧ (∃ u, findById (handleDeleteFlow (handleMerge l B.id S.id) B.id newSellId) B.id
        = some u ∧ u.name = B.name ∧ u.buyPrice = B.buyPrice ∧ u.sellPrice = 0)
    ∧ (∃ w, (handleDeleteFlow (handleMerge l B.id S.id) B.id newSellId).head?
        = some w ∧ w.name = S.name ∧ w.sellPrice = S.sellPrice ∧ w.buyPrice = 0) := by
  have hb : findById l B.id = some B := findById_eq_of_nodup l B hnd hB
  have hs : findById l S.id = some S := findById_eq_of_nodup l S hnd hS
  have hmfound : findById (handleMerge l B.id S.id) B.id = some (mergedRecord B S) :=
    findById_handleMerge l B.id S.id B S hb hs hne
  have hmlen : (handleMerge l B.id S.id).length = l.length - 1 :=
    length_handleMerge l B.id S.id B S hb hs hnd
  have hmcl : 0 < (mergedRecord B S).buyPrice ∧ 0 < (mergedRecord B S).sellPrice
      ∧ (mergedRecord B S).isSold := ⟨hBinv.1, hSorph.2, rfl⟩
  have hflow : handleDeleteFlow (handleMerge l B.id S.id) B.id newSellId
      = executeSplit (handleMerge l B.id S.id) B.id newSellId :=
    handleDeleteFlow_split _ B.id newSellId _ hmfound hmcl
  have hsplit := executeSplit_found (handleMerge l B.id S.id) B.id newSellId _ hmfound
  have e1 : (mergedRecord B S).notes.getD ""
      = (B.notes.getD "") ++ matchSeparator ++ S.name := rfl
  have hcont : strContains ((mergedRecord B S).notes.getD "") matchSeparator = true := by
    rw [e1]
    exact strContains_around_separator _ _
  have hsplitN : splitOnSep ((mergedRecord B S).notes.getD "") matchSeparator
      = [B.notes.getD "", S.name] := by
    rw [e1]
    exact splitOnSep_around_separator _ _ hnotes hsname
  have hname : recoveredSellName (mergedRecord B S) = S.name := by
    simp only [recoveredSellName, hcont, if_true, hsplitN]
    simpa [List.getD] using htrim
  have hpos : 0 < l.length := List.length_pos.mpr (List.ne_nil_of_mem hB)
  rw [hflow, hsplit]
  refine ⟨?_, ?_, ?_⟩
  · rw [List.length_cons, List.length_map, hmlen]
    omega
  · refine ⟨restoredBuyOf (mergedRecord B S), ?_, rfl, rfl, rfl⟩
    have hrs : ((restoredSellOf (mergedRecord B S) newSellId).id == B.id) = false :=
      beq_eq_false_iff_ne.mpr hfresh
    rw [findById, List.find?_cons_of_neg _ (by simp [hrs]), ← findById,
      findById_map _ _ (split_map_preserves_id B.id (mergedRecord B S) rfl) B.id,
      hmfound]
    simp [mergedRecord_id]
  · exact ⟨restoredSellOf (mergedRecord B S) newSellId, rfl, hname, rfl, rfl⟩

/-- Witness for C1: the round trip on a concrete two-record collection
with a trim-stable sale name. -/
theorem C1_witness :
    trimStr "KeyS" = "KeyS"
    ∧ (handleDeleteFlow (handleMerge
        [⟨"b", "KeyB", "Electronics", 100, 0, false, "2024-01-01",
          none, none, none, none, none⟩,
         ⟨"s", "KeyS", "Electronics", 0, 150, true, "2024-02-01",
          some "2024-02-02", none, none, none, none⟩] "b" "s") "b" "n1").length = 2
    ∧ (∃ w, (handleDeleteFlow (handleMerge
        [⟨"b", "KeyB", "Electronics", 100, 0, false, "2024-01-01",
          none, none, none, none, none⟩,
         ⟨"s", "KeyS", "Electronics", 0, 150, true, "2024-02-01",
          some "2024-02-02", none, none, none, none⟩] "b" "s") "b" "n1").head?
        = some w ∧ w.name = "KeyS" ∧ w.sellPrice = 150 ∧ w.buyPrice = 0) := by
  have h := C1_merge_split_round_trip
    [⟨"b", "KeyB", "Electronics", 100, 0, false, "2024-01-01",
      none, none, none, none, none⟩,
     ⟨"s", "KeyS", "Electronics", 0, 150, true, "2024-02-01",
      some "2024-02-02", none, none, none, none⟩]
    ⟨"b", "KeyB", "Electronics", 100, 0, false, "2024-01-01",
      none, none, none, none, none⟩
    ⟨"s", "KeyS", "Electronics", 0, 150, true, "2024-02-01",
      some "2024-02-02", none, none, none, none⟩
    "n1" (by decide) (by simp) (by simp) (by decide) (by decide) (by decide)
    (by decide) (by decide) (by decide) (by decide) (by decide)
  exact ⟨by decide, h.1, h.2.2⟩
